import Mathlib

/-!
Verification of the Blastengine mailer plugin's delivery client
(`provider/http_client.py`) and validators (`tools/validators.py`).

The Python source is shallowly embedded: pure helpers become Lean
functions on `Nat`/`String`/`List`; JSON values become an inductive
type; the HTTP layer is modelled by an oracle giving each attempt's
outcome; machine words use `Nat` with explicit `% 2^32`.
-/

namespace Blastengine

/-! ### Bearer-token derivation (`_generate_bearer_token`)

`hashlib.sha256` is embedded as a full executable SHA-256 over byte
lists; `base64.b64encode` as standard base64. -/

/-- Truncate to a 32-bit word. -/
def w32 (x : Nat) : Nat := x % 4294967296

/-- 32-bit right rotation (input assumed `< 2^32`). -/
def rotr32 (n x : Nat) : Nat := x / 2 ^ n + x % 2 ^ n * 2 ^ (32 - n)

/-- 32-bit logical right shift. -/
def shr32 (n x : Nat) : Nat := x / 2 ^ n

/-- SHA-256 small sigma 0. -/
def ssig0 (x : Nat) : Nat := rotr32 7 x ^^^ rotr32 18 x ^^^ shr32 3 x

/-- SHA-256 small sigma 1. -/
def ssig1 (x : Nat) : Nat := rotr32 17 x ^^^ rotr32 19 x ^^^ shr32 10 x

/-- SHA-256 big sigma 0. -/
def bsig0 (x : Nat) : Nat := rotr32 2 x ^^^ rotr32 13 x ^^^ rotr32 22 x

/-- SHA-256 big sigma 1. -/
def bsig1 (x : Nat) : Nat := rotr32 6 x ^^^ rotr32 11 x ^^^ rotr32 25 x

/-- SHA-256 round constants (FIPS 180-4, in decimal). -/
def shaK : List Nat :=
  [1116352408, 1899447441, 3049323471, 3921009573, 961987163,
   1508970993, 2453635748, 2870763221, 3624381080, 310598401,
   607225278, 1426881987, 1925078388, 2162078206, 2614888103,
   3248222580, 3835390401, 4022224774, 264347078, 604807628,
   770255983, 1249150122, 1555081692, 1996064986, 2554220882,
   2821834349, 2952996808, 3210313671, 3336571891, 3584528711,
   113926993, 338241895, 666307205, 773529912, 1294757372,
   1396182291, 1695183700, 1986661051, 2177026350, 2456956037,
   2730485921, 2820302411, 3259730800, 3345764771, 3516065817,
   3600352804, 4094571909, 275423344, 430227734, 506948616,
   659060556, 883997877, 958139571, 1322822218, 1537002063,
   1747873779, 1955562222, 2024104815, 2227730452, 2361852424,
   2428436474, 2756734187, 3204031479, 3329325298]

/-- SHA-256 initial hash state (FIPS 180-4, in decimal). -/
def shaH0 : List Nat :=
  [1779033703, 3144134277, 1013904242, 2773480762,
   1359893119, 2600822924, 528734635, 1541459225]

/-- Extend a 16-word block to the 64-word message schedule. -/
def extendW (fuel : Nat) (w : List Nat) : List Nat :=
  match fuel with
  | 0 => w
  | f + 1 =>
    if 64 ≤ w.length then w
    else
      let i := w.length
      extendW f (w ++ [w32 (w.getD (i - 16) 0 + ssig0 (w.getD (i - 15) 0) +
        w.getD (i - 7) 0 + ssig1 (w.getD (i - 2) 0))])

/-- One SHA-256 compression round; state is `[a,b,c,d,e,f,g,h]`. -/
def shaRound (st : List Nat) (kw : Nat × Nat) : List Nat :=
  let a := st.getD 0 0
  let b := st.getD 1 0
  let c := st.getD 2 0
  let d := st.getD 3 0
  let e := st.getD 4 0
  let f := st.getD 5 0
  let g := st.getD 6 0
  let h := st.getD 7 0
  let ch := e &&& f ^^^ ((e ^^^ 4294967295) &&& g)
  let maj := a &&& b ^^^ a &&& c ^^^ b &&& c
  let t1 := w32 (h + bsig1 e + ch + kw.1 + kw.2)
  let t2 := w32 (bsig0 a + maj)
  [w32 (t1 + t2), a, b, c, w32 (d + t1), e, f, g]

/-- Compress one 16-word block into the running hash state. -/
def shaCompress (h : List Nat) (block : List Nat) : List Nat :=
  let w := extendW 64 block
  let st := (shaK.zip w).foldl shaRound h
  (h.zip st).map fun p => w32 (p.1 + p.2)

/-- Pack big-endian bytes into 32-bit words. -/
def bytesToWords : List Nat → List Nat
  | b0 :: b1 :: b2 :: b3 :: rest =>
    (b0 * 16777216 + b1 * 65536 + b2 * 256 + b3) :: bytesToWords rest
  | _ => []

/-- SHA-256 padding: append `0x80`, zeros, and the 64-bit bit length. -/
def shaPad (msg : List Nat) : List Nat :=
  let len := msg.length
  let zeros := (119 - len % 64) % 64
  let bits := 8 * len
  msg ++ [128] ++ List.replicate zeros 0 ++
    ([56, 48, 40, 32, 24, 16, 8, 0].map fun s => bits / 2 ^ s % 256)

/-- Split a byte list into 64-byte chunks (fuel bounds the chunk count). -/
def chunks64Go (fuel : Nat) (l : List Nat) : List (List Nat) :=
  match fuel, l with
  | 0, _ => []
  | _, [] => []
  | f + 1, x :: xs => (x :: xs).take 64 :: chunks64Go f ((x :: xs).drop 64)

/-- Split a byte list into 64-byte chunks. -/
def chunks64 (l : List Nat) : List (List Nat) := chunks64Go l.length l

/-- SHA-256 of a byte list, as the list of eight 32-bit state words. -/
def sha256Words (msg : List Nat) : List Nat :=
  ((chunks64 (shaPad msg)).map bytesToWords).foldl shaCompress shaH0

/-- Lowercase hex digit for a value `< 16`. -/
def hexDigit (n : Nat) : Char :=
  if n < 10 then Char.ofNat (48 + n) else Char.ofNat (87 + n)

/-- Lowercase hex rendering of one byte. -/
def byteToHex (b : Nat) : List Char := [hexDigit (b / 16), hexDigit (b % 16)]

/-- The 64-character `hexdigest()` of SHA-256 over a byte list. -/
def sha256Hex (msg : List Nat) : String :=
  String.mk ((sha256Words msg).flatMap fun word =>
    ([24, 16, 8, 0].map fun s => word / 2 ^ s % 256).flatMap byteToHex)

/-- UTF-8 encoding of one character. -/
def utf8Bytes (c : Char) : List Nat :=
  let n := c.toNat
  if n < 128 then [n]
  else if n < 2048 then [192 + n / 64, 128 + n % 64]
  else if n < 65536 then [224 + n / 4096, 128 + n / 64 % 64, 128 + n % 64]
  else [240 + n / 262144, 128 + n / 4096 % 64, 128 + n / 64 % 64, 128 + n % 64]

/-- `str.encode("utf-8")` as a byte list. -/
def strBytes (s : String) : List Nat := s.data.flatMap utf8Bytes

/-- The base64 alphabet. -/
def b64Chars : List Char :=
  "ABCDEFGHIJKLMNOPQRSTUVWXYZabcdefghijklmnopqrstuvwxyz0123456789+/".data

/-- Base64 character for a 6-bit value. -/
def b64Char (n : Nat) : Char := b64Chars.getD n (Char.ofNat 65)

/-- Standard base64 encoding of a byte list. -/
def b64Encode : List Nat → List Char
  | [] => []
  | [b0] => [b64Char (b0 / 4), b64Char (b0 % 4 * 16), Char.ofNat 61, Char.ofNat 61]
  | [b0, b1] => [b64Char (b0 / 4), b64Char (b0 % 4 * 16 + b1 / 16),
      b64Char (b1 % 16 * 4), Char.ofNat 61]
  | b0 :: b1 :: b2 :: rest =>
    b64Char (b0 / 4) :: b64Char (b0 % 4 * 16 + b1 / 16) ::
      b64Char (b1 % 16 * 4 + b2 / 64) :: b64Char (b2 % 64) :: b64Encode rest

/-- ASCII lowercasing of a string (models `str.lower()` on hex digests). -/
def asciiLower (s : String) : String :=
  String.mk (s.data.map fun c =>
    if 65 ≤ c.toNat && c.toNat ≤ 90 then Char.ofNat (c.toNat + 32) else c)

/-- `BlastengineHttpClient._generate_bearer_token`: SHA-256 of the UTF-8
bytes of `login_id + api_key`, lowercased hexdigest, base64-encoded. -/
def generate_bearer_token (login_id api_key : String) : String :=
  let combined := strBytes (login_id ++ api_key)
  let digest := asciiLower (sha256Hex combined)
  String.mk (b64Encode (strBytes digest))

/-- C5: bearer-token derivation is deterministic — it is a function of the
credential pair, so equal pairs give equal tokens — and it is not symmetric:
swapping login id `"a"` and api key `"b"` changes the token. -/
theorem bearer_token_deterministic_and_asymmetric :
    (∀ p q : String × String, p = q →
      generate_bearer_token p.1 p.2 = generate_bearer_token q.1 q.2) ∧
    generate_bearer_token "a" "b" ≠ generate_bearer_token "b" "a" := by
  refine ⟨fun p q h => by rw [h], ?_⟩
  set_option maxRecDepth 10000 in decide

/-- C5 witness: the determinism half applied at the concrete pair
`("login", "key")`. -/
theorem bearer_token_deterministic_and_asymmetric_witness :
    generate_bearer_token "login" "key" = generate_bearer_token "login" "key" :=
  bearer_token_deterministic_and_asymmetric.1 ("login", "key") ("login", "key") rfl

/-- C10: the derivation hashes the plain concatenation `login_id + api_key`,
so any two credential pairs with equal concatenations collide to the same
bearer token. -/
theorem bearer_token_concat_collision (l1 a1 l2 a2 : String)
    (h : l1 ++ a1 = l2 ++ a2) :
    generate_bearer_token l1 a1 = generate_bearer_token l2 a2 := by
  unfold generate_bearer_token
  rw [h]

/-- C10 witness: the distinct pairs `("ab", "c")` and `("a", "bc")` receive
the same bearer token. -/
theorem bearer_token_concat_collision_witness :
    generate_bearer_token "ab" "c" = generate_bearer_token "a" "bc" :=
  bearer_token_concat_collision "ab" "c" "a" "bc" (by decide)

/-! ### `_sanitize_for_log`

The three `re.sub` passes are modelled directly: each regex here is simple
enough that greedy leftmost matching coincides with maximal-run scanning. -/

/-- `[A-Za-z0-9]` character class. -/
def isAlnumChar (c : Char) : Bool :=
  (65 ≤ c.toNat && c.toNat ≤ 90) || (97 ≤ c.toNat && c.toNat ≤ 122) ||
    (48 ≤ c.toNat && c.toNat ≤ 57)

/-- `\s` (ASCII whitespace). -/
def isWsChar (c : Char) : Bool :=
  c.toNat == 32 || c.toNat == 9 || c.toNat == 10 || c.toNat == 13 ||
    c.toNat == 11 || c.toNat == 12

/-- `[A-Za-z0-9+/=]`, the bearer-token character class. -/
def isB64RunChar (c : Char) : Bool :=
  isAlnumChar c || c == '+' || c == '/' || c == '='

/-- ASCII lowercase of one character, for the `re.IGNORECASE` match. -/
def lowerChar (c : Char) : Char :=
  if 65 ≤ c.toNat && c.toNat ≤ 90 then Char.ofNat (c.toNat + 32) else c

/-- Case-insensitive literal match; returns the remainder on success. -/
def matchCI : List Char → List Char → Option (List Char)
  | [], l => some l
  | _ :: _, [] => none
  | p :: ps, c :: cs => if lowerChar c == p then matchCI ps cs else none

/-- Try to match `Bearer\s+[A-Za-z0-9+/=]{20,}` (ignore-case) at the head;
returns the remainder after the greedy match. -/
def tryBearer (l : List Char) : Option (List Char) :=
  match matchCI "bearer".data l with
  | none => none
  | some rest =>
    let ws := rest.takeWhile isWsChar
    let rest2 := rest.dropWhile isWsChar
    let tok := rest2.takeWhile isB64RunChar
    if 1 ≤ ws.length && 20 ≤ tok.length then some (rest2.dropWhile isB64RunChar)
    else none

/-- `re.sub(r'Bearer\s+[A-Za-z0-9+/=]{20,}', 'Bearer ***', text, re.IGNORECASE)`;
fuel bounds the scan length. -/
def maskBearerGo (fuel : Nat) (l : List Char) : List Char :=
  match fuel with
  | 0 => l
  | f + 1 =>
    match l with
    | [] => []
    | c :: rest =>
      match tryBearer (c :: rest) with
      | some rem => "Bearer ***".data ++ maskBearerGo f rem
      | none => c :: maskBearerGo f rest

/-- First sanitization pass: mask bearer tokens. -/
def maskBearer (l : List Char) : List Char := maskBearerGo l.length l

/-- Emit a completed alphanumeric run: `***` if its length is ≥ 32. -/
def emitRun (run : List Char) : List Char :=
  if 32 ≤ run.length then "***".data else run

/-- `re.sub(r'[A-Za-z0-9]{32,}', '***', text)`: scan while accumulating the
current maximal alphanumeric run in `run`. -/
def maskRunsAcc (run : List Char) : List Char → List Char
  | [] => emitRun run
  | c :: rest =>
    if isAlnumChar c then maskRunsAcc (run ++ [c]) rest
    else emitRun run ++ c :: maskRunsAcc [] rest

/-- Second sanitization pass: mask long alphanumeric runs. -/
def maskRuns (l : List Char) : List Char := maskRunsAcc [] l

/-- `[a-zA-Z0-9._+-]`, the email local-part class. -/
def isLocalChar (c : Char) : Bool :=
  isAlnumChar c || c == '.' || c == '_' || c == '+' || c == '-'

/-- `[a-zA-Z0-9.-]`, the email domain class. -/
def isDomainChar (c : Char) : Bool :=
  isAlnumChar c || c == '.' || c == '-'

/-- `["\']`: a single or double quote. -/
def isQuoteChar (c : Char) : Bool := c == '"' || c == Char.ofNat 39

/-- Try to match `["\']local@domain["\']` at the head; returns the local
part, the domain, and the remainder after the closing quote. -/
def tryEmail (l : List Char) : Option (List Char × List Char × List Char) :=
  match l with
  | [] => none
  | q :: rest =>
    if isQuoteChar q then
      let loc := rest.takeWhile isLocalChar
      if loc.length = 0 then none
      else
        match rest.dropWhile isLocalChar with
        | [] => none
        | a :: r3 =>
          if a = '@' then
            let dom := r3.takeWhile isDomainChar
            if dom.length = 0 then none
            else
              match r3.dropWhile isDomainChar with
              | [] => none
              | q2 :: r5 => if isQuoteChar q2 then some (loc, dom, r5) else none
          else none
    else none

/-- `re.sub(r'["\']([a-zA-Z0-9._+-]+@[a-zA-Z0-9.-]+)["\']', r'"\1"', text)`:
matched spans are rewritten with double quotes, the captured group kept. -/
def maskEmailGo (fuel : Nat) (l : List Char) : List Char :=
  match fuel with
  | 0 => l
  | f + 1 =>
    match l with
    | [] => []
    | c :: rest =>
      match tryEmail (c :: rest) with
      | some (loc, dom, rem) =>
        '"' :: (loc ++ '@' :: (dom ++ '"' :: maskEmailGo f rem))
      | none => c :: maskEmailGo f rest

/-- Third sanitization pass: normalize quoted email-like substrings. -/
def maskEmail (l : List Char) : List Char := maskEmailGo l.length l

/-- Truncation to `_MAX_LOG_BODY_LENGTH` (200) with a marker suffixed. -/
def truncateForLog (l : List Char) : List Char :=
  if 200 < l.length then l.take 200 ++ "... (truncated)".data else l

/-- `_sanitize_for_log`: the three masking passes then truncation; empty
input is returned unchanged. -/
def sanitize_for_log (l : List Char) : List Char :=
  if l.length == 0 then l
  else truncateForLog (maskEmail (maskRuns (maskBearer l)))

/-- `_sanitize_for_log` on `String`. -/
def sanitizeStr (s : String) : String := String.mk (sanitize_for_log s.data)

/-- `l` starts with `n` alphanumeric characters. -/
def startsAlnumBlock (n : Nat) (l : List Char) : Bool :=
  decide (n ≤ l.length) && (l.take n).all isAlnumChar

/-- Some `n` consecutive characters of `l` are all alphanumeric. -/
def hasAlnumBlock (n : Nat) : List Char → Bool
  | [] => startsAlnumBlock n []
  | c :: rest => startsAlnumBlock n (c :: rest) || hasAlnumBlock n rest

/-- `S` occurs as a contiguous substring of `l`. -/
def containsSubstring (S l : List Char) : Prop := ∃ u v, l = u ++ S ++ v

theorem startsAlnumBlock_false_of_short (n : Nat) (l : List Char)
    (h : l.length < n) : startsAlnumBlock n l = false := by
  unfold startsAlnumBlock
  rw [decide_eq_false (by omega : ¬ n ≤ l.length)]
  rfl

theorem hasAlnumBlock_false_of_short (n : Nat) (l : List Char)
    (h : l.length < n) : hasAlnumBlock n l = false := by
  induction l with
  | nil => exact startsAlnumBlock_false_of_short n [] h
  | cons c rest ih =>
    unfold hasAlnumBlock
    rw [startsAlnumBlock_false_of_short n (c :: rest) h,
      ih (by simp only [List.length_cons] at h; omega)]
    rfl

theorem hasAlnumBlock_of_starts (n : Nat) (l : List Char)
    (h : startsAlnumBlock n l = true) : hasAlnumBlock n l = true := by
  cases l with
  | nil => exact h
  | cons c rest => unfold hasAlnumBlock; rw [h]; rfl

theorem hasAlnumBlock_cons_eq (n : Nat) (c : Char) (rest : List Char) :
    hasAlnumBlock n (c :: rest) =
      (startsAlnumBlock n (c :: rest) || hasAlnumBlock n rest) := rfl

theorem hasAlnumBlock_cons_false (n : Nat) (d : Char) (b : List Char)
    (hn : 0 < n) (hd : isAlnumChar d = false)
    (hb : hasAlnumBlock n b = false) : hasAlnumBlock n (d :: b) = false := by
  rw [hasAlnumBlock_cons_eq, hb]
  obtain ⟨m, rfl⟩ : ∃ m, n = m + 1 := ⟨n - 1, by omega⟩
  unfold startsAlnumBlock
  rw [List.take_succ_cons, List.all_cons, hd]
  simp

theorem hasAlnumBlock_append_false (n : Nat) (a b : List Char) (d : Char)
    (hn : 0 < n) (hd : isAlnumChar d = false)
    (ha : hasAlnumBlock n a = false) (hb : hasAlnumBlock n b = false) :
    hasAlnumBlock n (a ++ d :: b) = false := by
  induction a with
  | nil => simpa using hasAlnumBlock_cons_false n d b hn hd hb
  | cons x a' ih =>
    rw [hasAlnumBlock_cons_eq] at ha
    rw [Bool.or_eq_false_iff] at ha
    rw [List.cons_append, hasAlnumBlock_cons_eq, ih ha.2, Bool.or_false,
      show (x :: (a' ++ d :: b) : List Char) = (x :: a') ++ d :: b from rfl]
    unfold startsAlnumBlock
    by_cases hle : n ≤ (x :: a').length
    · rw [List.take_append_of_le_length hle]
      have ha1 := ha.1
      unfold startsAlnumBlock at ha1
      rw [decide_eq_true hle, Bool.true_and] at ha1
      rw [ha1, Bool.and_false]
    · rw [List.take_append_eq_append_take,
        List.take_of_length_le (by omega : (x :: a').length ≤ n)]
      obtain ⟨m, hm⟩ : ∃ m, n - (x :: a').length = m + 1 :=
        ⟨n - (x :: a').length - 1, by simp only [List.length_cons] at hle ⊢; omega⟩
      rw [hm, List.take_succ_cons]
      simp [hd]

theorem hasAlnumBlock_take_false (n : Nat) (l : List Char) (k : Nat)
    (hn : 0 < n) (h : hasAlnumBlock n l = false) :
    hasAlnumBlock n (l.take k) = false := by
  induction l generalizing k with
  | nil => simpa using h
  | cons c rest ih =>
    rw [hasAlnumBlock_cons_eq, Bool.or_eq_false_iff] at h
    cases k with
    | zero =>
      show hasAlnumBlock n [] = false
      exact hasAlnumBlock_false_of_short n [] (by simpa using hn)
    | succ k' =>
      rw [List.take_succ_cons, hasAlnumBlock_cons_eq, ih k' h.2, Bool.or_false]
      by_cases hle : n ≤ (c :: rest.take k').length
      · unfold startsAlnumBlock
        rw [show (c :: rest.take k').take n = (c :: rest).take n by
          rw [show (c :: rest.take k' : List Char) = (c :: rest).take (k' + 1) from rfl,
            List.take_take, Nat.min_eq_left
              (by simp only [List.length_cons, List.length_take] at hle; omega)]]
        unfold startsAlnumBlock at h
        rcases Bool.and_eq_false_iff.mp h.1 with h1 | h1
        · exfalso
          have : ¬ n ≤ (c :: rest).length := by simpa using h1
          refine this (le_trans hle ?_)
          simp only [List.length_cons, List.length_take]
          omega
        · rw [h1, Bool.and_false]
      · rw [startsAlnumBlock_false_of_short n _ (by omega)]

theorem hasAlnumBlock_of_middle (n : Nat) (u S v : List Char)
    (hS : S.all isAlnumChar = true) (hn : n ≤ S.length) :
    hasAlnumBlock n (u ++ (S ++ v)) = true := by
  induction u with
  | nil =>
    simp only [List.nil_append]
    apply hasAlnumBlock_of_starts
    unfold startsAlnumBlock
    rw [decide_eq_true (by simp only [List.length_append]; omega),
      List.take_append_of_le_length hn, Bool.true_and]
    rw [List.all_eq_true] at hS ⊢
    exact fun x hx => hS x (List.take_subset n S hx)
  | cons x u' ih =>
    rw [List.cons_append, hasAlnumBlock_cons_eq, ih, Bool.or_true]

theorem maskRunsAcc_no_block (l : List Char) : ∀ run : List Char,
    run.all isAlnumChar = true → hasAlnumBlock 32 (maskRunsAcc run l) = false := by
  induction l with
  | nil =>
    intro run hrun
    show hasAlnumBlock 32 (emitRun run) = false
    unfold emitRun
    by_cases h32 : 32 ≤ run.length
    · rw [if_pos h32]; decide
    · rw [if_neg h32]
      exact hasAlnumBlock_false_of_short 32 run (by omega)
  | cons c rest ih =>
    intro run hrun
    show hasAlnumBlock 32
      (if isAlnumChar c then maskRunsAcc (run ++ [c]) rest
       else emitRun run ++ c :: maskRunsAcc [] rest) = false
    by_cases hc : isAlnumChar c
    · rw [if_pos hc]
      exact ih (run ++ [c]) (by simp [List.all_append, hrun, hc])
    · rw [if_neg hc]
      refine hasAlnumBlock_append_false 32 (emitRun run) (maskRunsAcc [] rest) c
        (by omega) (by simpa using hc) ?_ (ih [] rfl)
      unfold emitRun
      by_cases h32 : 32 ≤ run.length
      · rw [if_pos h32]; decide
      · rw [if_neg h32]
        exact hasAlnumBlock_false_of_short 32 run (by omega)

theorem maskRuns_no_block (l : List Char) :
    hasAlnumBlock 32 (maskRuns l) = false :=
  maskRunsAcc_no_block l [] rfl

theorem isAlnumChar_false_of_quote (c : Char) (h : isQuoteChar c = true) :
    isAlnumChar c = false := by
  unfold isQuoteChar at h
  rcases Bool.or_eq_true_iff.mp h with h1 | h1
  · rw [show c = '"' from beq_iff_eq.mp h1]; decide
  · rw [show c = Char.ofNat 39 from beq_iff_eq.mp h1]; decide

theorem tryEmail_decomp (l loc dom rem : List Char)
    (h : tryEmail l = some (loc, dom, rem)) :
    ∃ q q2, l = q :: (loc ++ '@' :: (dom ++ q2 :: rem)) ∧
      isQuoteChar q = true ∧ isQuoteChar q2 = true := by
  cases l with
  | nil => exact absurd h (by simp [tryEmail])
  | cons q rest =>
    simp only [tryEmail] at h
    by_cases hq : isQuoteChar q
    case neg => rw [if_neg hq] at h; exact absurd h (by simp)
    rw [if_pos hq] at h
    by_cases hloc : (rest.takeWhile isLocalChar).length = 0
    case pos => rw [if_pos hloc] at h; exact absurd h (by simp)
    rw [if_neg hloc] at h
    cases hr2 : rest.dropWhile isLocalChar with
    | nil => rw [hr2] at h; exact absurd h (by simp)
    | cons a r3 =>
      rw [hr2] at h
      dsimp only at h
      by_cases hat : a = '@'
      case neg => rw [if_neg hat] at h; exact absurd h (by simp)
      rw [if_pos hat] at h
      subst hat
      by_cases hdom : (r3.takeWhile isDomainChar).length = 0
      case pos => rw [if_pos hdom] at h; exact absurd h (by simp)
      rw [if_neg hdom] at h
      cases hr4 : r3.dropWhile isDomainChar with
      | nil => rw [hr4] at h; exact absurd h (by simp)
      | cons q2 r5 =>
        rw [hr4] at h
        dsimp only at h
        by_cases hq2 : isQuoteChar q2
        case neg => rw [if_neg hq2] at h; exact absurd h (by simp)
        rw [if_pos hq2] at h
        obtain ⟨h1, h2, h3⟩ : rest.takeWhile isLocalChar = loc ∧
            r3.takeWhile isDomainChar = dom ∧ r5 = rem := by
          simpa using h
        refine ⟨q, q2, ?_, hq, hq2⟩
        have e1 : rest = loc ++ '@' :: r3 := by
          rw [← h1, ← hr2, List.takeWhile_append_dropWhile]
        have e2 : r3 = dom ++ q2 :: rem := by
          rw [← h2, ← h3, ← hr4, List.takeWhile_append_dropWhile]
        rw [e1, e2]

theorem maskEmailGo_map_alnum (fuel : Nat) : ∀ l : List Char,
    (maskEmailGo fuel l).map isAlnumChar = l.map isAlnumChar := by
  induction fuel with
  | zero => intro l; rfl
  | succ f ih =>
    intro l
    cases l with
    | nil => rfl
    | cons c rest =>
      show (match tryEmail (c :: rest) with
        | some (loc, dom, rem) =>
          '"' :: (loc ++ '@' :: (dom ++ '"' :: maskEmailGo f rem))
        | none => c :: maskEmailGo f rest).map isAlnumChar
        = (c :: rest).map isAlnumChar
      cases htry : tryEmail (c :: rest) with
      | none => simp [ih rest]
      | some trip =>
        obtain ⟨loc, dom, rem⟩ := trip
        obtain ⟨q, q2, hdec, hq, hq2⟩ := tryEmail_decomp _ _ _ _ htry
        obtain ⟨hcq, hrest⟩ : c = q ∧ rest = loc ++ '@' :: (dom ++ q2 :: rem) := by
          simpa using hdec
        rw [hrest, hcq]
        simp [ih rem, isAlnumChar_false_of_quote _ hq,
          isAlnumChar_false_of_quote _ hq2,
          (by decide : isAlnumChar '"' = false)]

theorem all_alnum_via_map (l : List Char) :
    l.all isAlnumChar = (l.map isAlnumChar).all id := by
  induction l with
  | nil => rfl
  | cons c rest ih => simp only [List.all_cons, List.map_cons, ih]; rfl

theorem startsAlnumBlock_eq_of_map (n : Nat) (l m : List Char)
    (h : l.map isAlnumChar = m.map isAlnumChar) :
    startsAlnumBlock n l = startsAlnumBlock n m := by
  unfold startsAlnumBlock
  have hlen : l.length = m.length := by
    rw [← List.length_map l isAlnumChar, ← List.length_map m isAlnumChar, h]
  have hall : (l.take n).all isAlnumChar = (m.take n).all isAlnumChar := by
    rw [all_alnum_via_map, all_alnum_via_map, List.map_take, List.map_take, h]
  rw [hlen, hall]

theorem hasAlnumBlock_eq_of_map (n : Nat) (l : List Char) : ∀ m : List Char,
    l.map isAlnumChar = m.map isAlnumChar →
    hasAlnumBlock n l = hasAlnumBlock n m := by
  induction l with
  | nil =>
    intro m h
    rw [show m = [] from List.map_eq_nil_iff.mp (by rw [← h]; rfl)]
  | cons c rest ih =>
    intro m h
    cases m with
    | nil => exact absurd h (by simp)
    | cons d mrest =>
      simp only [List.map_cons, List.cons.injEq] at h
      rw [hasAlnumBlock_cons_eq, hasAlnumBlock_cons_eq, ih mrest h.2,
        startsAlnumBlock_eq_of_map n (c :: rest) (d :: mrest)
          (by simp [h.1, h.2])]

theorem maskEmail_no_block (l : List Char)
    (h : hasAlnumBlock 32 l = false) :
    hasAlnumBlock 32 (maskEmail l) = false := by
  rw [hasAlnumBlock_eq_of_map 32 (maskEmail l) l (maskEmailGo_map_alnum l.length l)]
  exact h

theorem truncateForLog_no_block (l : List Char)
    (h : hasAlnumBlock 32 l = false) :
    hasAlnumBlock 32 (truncateForLog l) = false := by
  unfold truncateForLog
  by_cases hlen : 200 < l.length
  · rw [if_pos hlen,
      show ("... (truncated)".data : List Char)
        = '.' :: (".. (truncated)".data : List Char) from rfl]
    exact hasAlnumBlock_append_false 32 (l.take 200) ".. (truncated)".data '.'
      (by omega) (by decide) (hasAlnumBlock_take_false 32 l 200 (by omega) h)
      (by decide)
  · rw [if_neg hlen]; exact h

theorem sanitize_no_block (l : List Char) :
    hasAlnumBlock 32 (sanitize_for_log l) = false := by
  unfold sanitize_for_log
  by_cases h0 : l.length == 0
  · rw [if_pos h0]
    rw [show l = [] from List.length_eq_zero.mp (by simpa using h0)]
    decide
  · rw [if_neg h0]
    exact truncateForLog_no_block _ (maskEmail_no_block _ (maskRuns_no_block _))

/-- C6: any 40-character alphanumeric substring of the input is absent from
the output of `_sanitize_for_log` — the long-run masking pass leaves no 32
consecutive alphanumeric characters anywhere in the result. -/
theorem sanitize_never_contains_40_token (text S : List Char)
    (hlen : S.length = 40) (halnum : S.all isAlnumChar = true)
    (hin : containsSubstring S text) :
    ¬ containsSubstring S (sanitize_for_log text) := by
  rintro ⟨u, v, hout⟩
  have h1 : hasAlnumBlock 32 (sanitize_for_log text) = true := by
    rw [hout, List.append_assoc]
    exact hasAlnumBlock_of_middle 32 u S v halnum (by omega)
  rw [sanitize_no_block text] at h1
  exact absurd h1 (by simp)

/-- C6 witness: a concrete 40-character token inside a log line does not
survive sanitization. -/
theorem sanitize_never_contains_40_token_witness :
    ¬ containsSubstring (List.replicate 40 'a')
      (sanitize_for_log ("id=".data ++ List.replicate 40 'a' ++ ";".data)) :=
  sanitize_never_contains_40_token _ _ (by decide) (by decide)
    ⟨"id=".data, ";".data, rfl⟩

/-! ### `validators.normalize_email_list` (string input) -/

/-- `str.strip()` (ASCII whitespace). -/
def stripWs (l : List Char) : List Char :=
  ((l.dropWhile isWsChar).reverse.dropWhile isWsChar).reverse

/-- `text.split(",")`: comma-separated segments, empty segments kept. -/
def splitOnComma : List Char → List (List Char)
  | [] => [[]]
  | c :: rest =>
    if c = ',' then [] :: splitOnComma rest
    else
      match splitOnComma rest with
      | [] => [[c]]
      | s :: ss => (c :: s) :: ss

/-- The split/strip phase of `normalize_email_list` for one stripped entry:
if it contains a comma or newline, replace newlines by commas, split on
commas, strip each segment and drop empties; otherwise keep it whole. -/
def splitEntry (text : List Char) : List (List Char) :=
  if text.contains ',' || text.contains '\n' then
    (((splitOnComma (text.map fun c => if c = '\n' then ',' else c)).map
      stripWs).filter fun s => s ≠ [])
  else [text]

/-- The per-email validation of `normalize_email_list`: exactly one `@`,
nonempty local and domain parts, a dot in the domain, and neither part
whitespace-only. -/
def validEmail (email : List Char) : Bool :=
  let loc := email.takeWhile fun c => c ≠ '@'
  let dom := (email.dropWhile fun c => c ≠ '@').tail
  email.count '@' == 1 && !loc.isEmpty && !dom.isEmpty && dom.contains '.' &&
    !(stripWs loc).isEmpty && !(stripWs dom).isEmpty

/-- Validate each split email in order, failing on the first invalid one. -/
def checkEmails : List (List Char) → Except String (List (List Char))
  | [] => .ok []
  | e :: rest =>
    if validEmail e then (checkEmails rest).map (e :: ·)
    else .error "不正なメールアドレス形式です"

/-- Case-insensitive de-duplication keeping the first occurrence, with the
set of already-seen lowercased addresses in `seen`. -/
def dedupGo (seen : List (List Char)) : List (List Char) → List (List Char)
  | [] => []
  | e :: rest =>
    let low := e.map lowerChar
    if low ∈ seen then dedupGo seen rest
    else e :: dedupGo (low :: seen) rest

/-- `normalize_email_list` on a single string input: strip, split on commas
and newlines, validate, then de-duplicate case-insensitively. -/
def normalize_email_list (raw : String) : Except String (List String) :=
  let t := stripWs raw.data
  let emails := if t.isEmpty then [] else splitEntry t
  (checkEmails emails).map fun es => (dedupGo [] es).map String.mk

theorem dedupGo_lower_not_mem (l : List (List Char)) : ∀ seen x,
    x ∈ dedupGo seen l → x.map lowerChar ∉ seen := by
  induction l with
  | nil => intro seen x hx; exact absurd hx (by simp [dedupGo])
  | cons e rest ih =>
    intro seen x hx
    unfold dedupGo at hx
    by_cases hmem : e.map lowerChar ∈ seen
    · exact ih seen x (by simpa [hmem] using hx)
    · rw [if_neg hmem] at hx
      rcases List.mem_cons.mp hx with rfl | hx2
      · exact hmem
      · intro hseen
        exact (ih _ x hx2) (List.mem_cons_of_mem _ hseen)

theorem dedupGo_pairwise (l : List (List Char)) : ∀ seen,
    (dedupGo seen l).Pairwise
      (fun a b => a.map lowerChar ≠ b.map lowerChar) := by
  induction l with
  | nil => intro seen; simp [dedupGo]
  | cons e rest ih =>
    intro seen
    unfold dedupGo
    by_cases hmem : e.map lowerChar ∈ seen
    · simpa [hmem] using ih seen
    · rw [if_neg hmem]
      refine List.Pairwise.cons ?_ (ih _)
      intro b hb hcontra
      exact (dedupGo_lower_not_mem rest _ b hb) (by rw [← hcontra]; simp)

/-- C7: email-list normalization splits on commas and newlines, strips
whitespace, and de-duplicates case-insensitively keeping first occurrences:
the claim's concrete input evaluates exactly as stated, a later case
variant of an earlier address is dropped, and every successful result has
pairwise-distinct lowercased entries. -/
theorem normalize_email_list_spec :
    (normalize_email_list "a@b.com, c@d.com\nE@F.COM"
        = Except.ok ["a@b.com", "c@d.com", "E@F.COM"]) ∧
    (normalize_email_list "a@b.com, A@B.COM, c@d.com"
        = Except.ok ["a@b.com", "c@d.com"]) ∧
    ∀ raw es, normalize_email_list raw = Except.ok es →
      es.Pairwise (fun a b => a.data.map lowerChar ≠ b.data.map lowerChar) := by
  refine ⟨rfl, rfl, ?_⟩
  intro raw es h
  unfold normalize_email_list at h
  dsimp only at h
  cases hc : checkEmails (if (stripWs raw.data).isEmpty then []
      else splitEntry (stripWs raw.data)) with
  | error e => rw [hc] at h; exact absurd h (by simp [Except.map])
  | ok l =>
    rw [hc] at h
    obtain rfl : (dedupGo [] l).map String.mk = es := by
      simpa [Except.map] using h
    rw [List.pairwise_map]
    exact dedupGo_pairwise l []

/-- C7 witness: the pairwise-distinctness component applied to the claim's
concrete input. -/
theorem normalize_email_list_spec_witness :
    (["a@b.com", "c@d.com", "E@F.COM"] : List String).Pairwise
      (fun a b => a.data.map lowerChar ≠ b.data.map lowerChar) :=
  normalize_email_list_spec.2.2 "a@b.com, c@d.com\nE@F.COM"
    ["a@b.com", "c@d.com", "E@F.COM"] normalize_email_list_spec.1

/-! ### `validators.validate_attachments` -/

/-- Modelled from the spec: `ResolvedFile` (from `tools/file_utils.py`, which
is not among the sources) is "a reference to bytes on disk with a filename";
`size` stands in for `os.path.getsize(file.path)`, assumed to succeed. -/
structure ResolvedFile where
  path : String
  size : Nat
deriving DecidableEq

/-- `MAX_ATTACHMENT_COUNT`. -/
def MAX_ATTACHMENT_COUNT : Nat := 10

/-- `MAX_TOTAL_ATTACHMENT_BYTES`. -/
def MAX_TOTAL_ATTACHMENT_BYTES : Nat := 1000000

/-- `DISALLOWED_EXTENSIONS`. -/
def DISALLOWED_EXTENSIONS : List String :=
  [".exe", ".bat", ".js", ".vbs", ".zip", ".gz", ".dll", ".scr"]

/-- `pathlib.Path(p).name`: the final path component (trailing slashes
ignored). -/
def pathFinalName (p : String) : List Char :=
  (((p.data.reverse.dropWhile fun c => c = '/').takeWhile
    fun c => c ≠ '/').reverse)

/-- `pathlib.Path(p).suffix`: the part of the name from its last dot, empty
when the last dot is the first or last character of the name. -/
def pathSuffix (p : String) : String :=
  let name := pathFinalName p
  let rev := name.reverse
  if rev.contains '.' then
    let afterRev := rev.takeWhile fun c => c ≠ '.'
    let i := name.length - 1 - afterRev.length
    if 0 < i && i < name.length - 1 then
      String.mk ('.' :: afterRev.reverse)
    else ""
  else ""

/-- `path.suffix.lower()`. -/
def suffixLower (p : String) : String :=
  asciiLower (pathSuffix p)

/-- The per-file extension check inside the loop of `validate_attachments`,
failing on the first disallowed extension. -/
def checkExtAll : List ResolvedFile → Except String Unit
  | [] => .ok ()
  | f :: rest =>
    if suffixLower f.path ∈ DISALLOWED_EXTENSIONS then
      .error ("拡張子 " ++ suffixLower f.path ++ " のファイルはblastengineで禁止されています")
    else checkExtAll rest

/-- The accumulated `total_bytes` of `validate_attachments`. -/
def totalSize (files : List ResolvedFile) : Nat :=
  (files.map ResolvedFile.size).sum

/-- `validate_attachments`: count bound, per-file extension check, then the
total-size bound (the detailed size-report message is abbreviated). -/
def validate_attachments (files : List ResolvedFile) : Except String Unit :=
  if MAX_ATTACHMENT_COUNT < files.length then
    .error "添付ファイルは最大10件までです"
  else
    match checkExtAll files with
    | .error e => .error e
    | .ok () =>
      if MAX_TOTAL_ATTACHMENT_BYTES < totalSize files then
        .error "添付ファイルの合計サイズが制限を超えています。"
      else .ok ()

theorem checkExtAll_error_of_mem (files : List ResolvedFile)
    (f : ResolvedFile) (hf : f ∈ files)
    (hext : suffixLower f.path ∈ DISALLOWED_EXTENSIONS) :
    ∃ e, checkExtAll files = .error e := by
  induction files with
  | nil => exact absurd hf (by simp)
  | cons g rest ih =>
    unfold checkExtAll
    by_cases hg : suffixLower g.path ∈ DISALLOWED_EXTENSIONS
    · exact ⟨_, by rw [if_pos hg]⟩
    · rw [if_neg hg]
      rcases List.mem_cons.mp hf with rfl | hf2
      · exact absurd hext hg
      · exact ih hf2

theorem checkExtAll_ok (files : List ResolvedFile)
    (h : ∀ f ∈ files, suffixLower f.path ∉ DISALLOWED_EXTENSIONS) :
    checkExtAll files = .ok () := by
  induction files with
  | nil => rfl
  | cons g rest ih =>
    unfold checkExtAll
    rw [if_neg (h g (by simp))]
    exact ih fun f hf => h f (List.mem_cons_of_mem _ hf)

/-- C8: attachment validation rejects every file set whose combined size
exceeds 1,000,000 bytes, and every file set containing a `.exe` file,
regardless of sizes; a set within the count bound with no disallowed
extension and total size within the bound passes. -/
theorem validate_attachments_spec :
    (∀ files, MAX_TOTAL_ATTACHMENT_BYTES < totalSize files →
      ∃ e, validate_attachments files = .error e) ∧
    (∀ files f, f ∈ files → suffixLower f.path = ".exe" →
      ∃ e, validate_attachments files = .error e) ∧
    (∀ files, files.length ≤ MAX_ATTACHMENT_COUNT →
      totalSize files ≤ MAX_TOTAL_ATTACHMENT_BYTES →
      (∀ f ∈ files, suffixLower f.path ∉ DISALLOWED_EXTENSIONS) →
      validate_attachments files = .ok ()) := by
  refine ⟨?_, ?_, ?_⟩
  · intro files hsize
    unfold validate_attachments
    by_cases hcnt : MAX_ATTACHMENT_COUNT < files.length
    · exact ⟨_, by rw [if_pos hcnt]⟩
    · rw [if_neg hcnt]
      cases hc : checkExtAll files with
      | error e => exact ⟨e, rfl⟩
      | ok u => cases u; exact ⟨_, by rw [if_pos hsize]⟩
  · intro files f hf hext
    unfold validate_attachments
    by_cases hcnt : MAX_ATTACHMENT_COUNT < files.length
    · exact ⟨_, by rw [if_pos hcnt]⟩
    · rw [if_neg hcnt]
      obtain ⟨e, he⟩ := checkExtAll_error_of_mem files f hf
        (by rw [hext]; decide)
      rw [he]
      exact ⟨e, rfl⟩
  · intro files hcnt hsize hexts
    unfold validate_attachments
    rw [if_neg (by omega), checkExtAll_ok files hexts,
      if_neg (by omega)]

/-- C8 witness: all three components at concrete file sets — two text files
totalling 1,200,001 bytes are rejected, a tiny `.exe` is rejected, and a
small `.txt` passes. -/
theorem validate_attachments_spec_witness :
    (∃ e, validate_attachments
      [⟨"a.txt", 600000⟩, ⟨"b.txt", 600001⟩] = .error e) ∧
    (∃ e, validate_attachments [⟨"mal.exe", 5⟩] = .error e) ∧
    validate_attachments [⟨"ok.txt", 100⟩] = .ok () :=
  ⟨validate_attachments_spec.1 [⟨"a.txt", 600000⟩, ⟨"b.txt", 600001⟩]
      (by decide),
    validate_attachments_spec.2.1 [⟨"mal.exe", 5⟩] ⟨"mal.exe", 5⟩
      (by decide) (by decide),
    validate_attachments_spec.2.2 [⟨"ok.txt", 100⟩] (by decide) (by decide)
      (by decide)⟩

/-! ### `BlastengineHttpClient._request`: the retry loop

Each attempt's result is given by an oracle `outcome : Nat → AttemptOutcome`
(a transport exception or an HTTP status); the loop's attempt count, the
sleeps performed, and the final result are returned as a trace. -/

/-- What one `self._session.request(...)` call produced. -/
inductive AttemptOutcome
  /-- `requests.RequestException` was raised. -/
  | exc
  /-- A response with the given status code. -/
  | status (code : Nat)

/-- `_RETRY_STATUSES`. -/
def RETRY_STATUSES : List Nat := [408, 425, 429, 500, 502, 503, 504]

/-- How `_request` fails: `BlastengineHttpError(None, ...)` after exhausted
transport errors, or `BlastengineHttpError(status_code, ...)`. -/
inductive ReqError
  | transport
  | http (code : Nat)

/-- Observable behaviour of one `_request` call: number of attempts made,
sleeps performed (in order), and the outcome. -/
structure ReqTrace where
  attempts : Nat
  sleeps : List Nat
  result : Except ReqError Nat

/-- The body of `for attempt in range(self.max_retries + 1)`: fuel counts
the remaining loop iterations, so the `fuel = 0` case is the unreachable
fall-through raise after the loop (lines 305-306 of the source). -/
def reqLoopGo (maxRetries : Nat) (outcome : Nat → AttemptOutcome) :
    Nat → Nat → List Nat → ReqTrace
  | 0, attempt, sleeps => ⟨attempt, sleeps, .error .transport⟩
  | f + 1, attempt, sleeps =>
    match outcome attempt with
    | .exc =>
      if attempt < maxRetries then
        reqLoopGo maxRetries outcome f (attempt + 1) (sleeps ++ [2 ^ attempt])
      else ⟨attempt + 1, sleeps, .error .transport⟩
    | .status s =>
      if s ∈ RETRY_STATUSES ∧ attempt < maxRetries then
        reqLoopGo maxRetries outcome f (attempt + 1) (sleeps ++ [2 ^ attempt])
      else if 400 ≤ s then ⟨attempt + 1, sleeps, .error (.http s)⟩
      else ⟨attempt + 1, sleeps, .ok s⟩

/-- `_request` as a trace: `max_retries + 1` loop iterations from attempt 0. -/
def request (maxRetries : Nat) (outcome : Nat → AttemptOutcome) : ReqTrace :=
  reqLoopGo maxRetries outcome (maxRetries + 1) 0 []

/-- An attempt outcome on which the loop retries: a transport exception or
a whitelisted status. -/
def retryableOutcome : AttemptOutcome → Prop
  | .exc => True
  | .status s => s ∈ RETRY_STATUSES

theorem reqLoopGo_zero (maxRetries : Nat) (outcome : Nat → AttemptOutcome)
    (attempt : Nat) (sleeps : List Nat) :
    reqLoopGo maxRetries outcome 0 attempt sleeps
      = ⟨attempt, sleeps, .error .transport⟩ := rfl

theorem reqLoopGo_succ (maxRetries : Nat) (outcome : Nat → AttemptOutcome)
    (f attempt : Nat) (sleeps : List Nat) :
    reqLoopGo maxRetries outcome (f + 1) attempt sleeps
      = match outcome attempt with
        | .exc =>
          if attempt < maxRetries then
            reqLoopGo maxRetries outcome f (attempt + 1)
              (sleeps ++ [2 ^ attempt])
          else ⟨attempt + 1, sleeps, .error .transport⟩
        | .status s =>
          if s ∈ RETRY_STATUSES ∧ attempt < maxRetries then
            reqLoopGo maxRetries outcome f (attempt + 1)
              (sleeps ++ [2 ^ attempt])
          else if 400 ≤ s then ⟨attempt + 1, sleeps, .error (.http s)⟩
          else ⟨attempt + 1, sleeps, .ok s⟩ := rfl

theorem retry_status_ge_400 (s : Nat) (h : s ∈ RETRY_STATUSES) : 400 ≤ s := by
  rcases h with _ | ⟨_, _ | ⟨_, _ | ⟨_, _ | ⟨_, _ | ⟨_, _ | ⟨_, _ | ⟨_, h⟩⟩⟩⟩⟩⟩⟩
  · omega
  · omega
  · omega
  · omega
  · omega
  · omega
  · omega
  · exact absurd h (List.not_mem_nil s)

theorem reqLoopGo_all_retryable (maxRetries : Nat)
    (outcome : Nat → AttemptOutcome)
    (h : ∀ i, i ≤ maxRetries → retryableOutcome (outcome i)) :
    ∀ fuel attempt sleeps, attempt + fuel = maxRetries + 1 →
      (reqLoopGo maxRetries outcome fuel attempt sleeps).attempts
          = maxRetries + 1 ∧
      (reqLoopGo maxRetries outcome fuel attempt sleeps).sleeps
          = sleeps ++ (List.range' attempt (maxRetries - attempt)).map (2 ^ ·) ∧
      ∃ err, (reqLoopGo maxRetries outcome fuel attempt sleeps).result
          = .error err := by
  intro fuel
  induction fuel with
  | zero =>
    intro attempt sleeps hinv
    obtain rfl : attempt = maxRetries + 1 := by omega
    rw [reqLoopGo_zero]
    refine ⟨rfl, ?_, .transport, rfl⟩
    rw [show maxRetries - (maxRetries + 1) = 0 from by omega]
    simp [List.range']
  | succ f ih =>
    intro attempt sleeps hinv
    have hle : attempt ≤ maxRetries := by omega
    have hro := h attempt hle
    have hrange : attempt < maxRetries →
        (List.range' attempt (maxRetries - attempt)).map (2 ^ ·)
          = 2 ^ attempt ::
            (List.range' (attempt + 1) (maxRetries - (attempt + 1))).map
              (2 ^ ·) := by
      intro hlt
      rw [show maxRetries - attempt = (maxRetries - (attempt + 1)) + 1 from
        by omega, List.range'_succ]
      rfl
    rw [reqLoopGo_succ]
    cases ho : outcome attempt with
    | exc =>
      dsimp only
      by_cases hlt : attempt < maxRetries
      · rw [if_pos hlt]
        obtain ⟨h1, h2, h3⟩ := ih (attempt + 1) (sleeps ++ [2 ^ attempt])
          (by omega)
        refine ⟨h1, ?_, h3⟩
        rw [h2, hrange hlt, List.append_assoc]
        rfl
      · rw [if_neg hlt]
        obtain rfl : attempt = maxRetries := by omega
        refine ⟨rfl, ?_, .transport, rfl⟩
        simp [List.range']
    | status s =>
      dsimp only
      have hs : s ∈ RETRY_STATUSES := by
        rw [ho] at hro
        exact hro
      by_cases hlt : attempt < maxRetries
      · rw [if_pos ⟨hs, hlt⟩]
        obtain ⟨h1, h2, h3⟩ := ih (attempt + 1) (sleeps ++ [2 ^ attempt])
          (by omega)
        refine ⟨h1, ?_, h3⟩
        rw [h2, hrange hlt, List.append_assoc]
        rfl
      · rw [if_neg fun hc => hlt hc.2, if_pos (retry_status_ge_400 s hs)]
        obtain rfl : attempt = maxRetries := by omega
        refine ⟨rfl, ?_, .http s, rfl⟩
        simp [List.range']

/-- C1: when every attempt hits a whitelisted status or a transport failure,
`_request` performs exactly `max_retries` additional attempts
(`max_retries + 1` total), sleeping `2^attempt` (1, 2, ...) between
attempts, and fails; a first-attempt status that is `≥ 400` and not in the
whitelist fails at once with no retry and no sleep. -/
theorem request_retry_policy (maxRetries : Nat)
    (outcome : Nat → AttemptOutcome) :
    ((∀ i, i ≤ maxRetries → retryableOutcome (outcome i)) →
      (request maxRetries outcome).attempts = maxRetries + 1 ∧
      (request maxRetries outcome).sleeps
        = (List.range maxRetries).map (2 ^ ·) ∧
      ∃ err, (request maxRetries outcome).result = .error err) ∧
    (∀ s, outcome 0 = .status s → 400 ≤ s → s ∉ RETRY_STATUSES →
      (request maxRetries outcome).attempts = 1 ∧
      (request maxRetries outcome).sleeps = [] ∧
      (request maxRetries outcome).result = .error (.http s)) := by
  constructor
  · intro h
    obtain ⟨h1, h2, h3⟩ := reqLoopGo_all_retryable maxRetries outcome h
      (maxRetries + 1) 0 [] (by omega)
    refine ⟨h1, ?_, h3⟩
    show (reqLoopGo maxRetries outcome (maxRetries + 1) 0 []).sleeps = _
    rw [h2, List.range_eq_range']
    rfl
  · intro s hs h400 hnr
    have hred : request maxRetries outcome = ⟨1, [], .error (.http s)⟩ := by
      rw [request, reqLoopGo_succ, hs]
      dsimp only
      rw [if_neg fun hc => hnr hc.1, if_pos h400]
    rw [hred]
    exact ⟨rfl, rfl, rfl⟩

/-- C1 witness: with the default `max_retries = 2` and every attempt
returning 503, there are 3 attempts with sleeps `[1, 2]`; a first-attempt
404 fails immediately with no sleeps. -/
theorem request_retry_policy_witness :
    ((request 2 fun _ => .status 503).attempts = 3 ∧
      (request 2 fun _ => .status 503).sleeps = [1, 2] ∧
      ∃ err, (request 2 fun _ => .status 503).result = .error err) ∧
    ((request 2 fun _ => .status 404).attempts = 1 ∧
      (request 2 fun _ => .status 404).sleeps = [] ∧
      (request 2 fun _ => .status 404).result = .error (.http 404)) := by
  constructor
  · obtain ⟨h1, h2, h3⟩ := (request_retry_policy 2 fun _ => .status 503).1
      (fun i _ => by show (503 : Nat) ∈ RETRY_STATUSES; decide)
    exact ⟨h1, by rw [h2]; rfl, h3⟩
  · exact (request_retry_policy 2 fun _ => .status 404).2 404 rfl
      (by omega) (by decide)

/-! ### JSON values and Python coercions -/

/-- A parsed JSON value (`response.json()`); numbers are modelled as
integers. -/
inductive Json
  | null
  | bool (b : Bool)
  | num (n : Int)
  | str (s : String)
  | arr (elems : List Json)
  | obj (fields : List (String × Json))

/-- Python truthiness of a decoded JSON value. -/
def truthy : Json → Bool
  | .null => false
  | .bool b => b
  | .num n => n != 0
  | .str s => !s.isEmpty
  | .arr l => !l.isEmpty
  | .obj l => !l.isEmpty

/-- `dict.get(k)` on a decoded JSON object (keys are unique in a Python
dict; an association list with first-match lookup models it). -/
def jgetOpt (k : String) : List (String × Json) → Option Json
  | [] => none
  | (k', v) :: rest => if k' = k then some v else jgetOpt k rest

/-- `dict.get(k)` with Python's `None` for a missing key. -/
def jget (k : String) (d : List (String × Json)) : Json :=
  (jgetOpt k d).getD .null

/-- Python `a or b`. -/
def pyOr (a b : Json) : Json := if truthy a then a else b

mutual

/-- Python `repr()` of a decoded JSON value (string escaping elided). -/
def pyRepr : Json → String
  | .null => "None"
  | .bool b => if b then "True" else "False"
  | .num n => toString n
  | .str s =>
    String.mk (Char.ofNat 39 :: s.data ++ [Char.ofNat 39])
  | .arr l => "[" ++ ", ".intercalate (pyReprList l) ++ "]"
  | .obj l => "\x7b" ++ ", ".intercalate (pyReprObjList l) ++ "\x7d"

/-- `repr` of each array element. -/
def pyReprList : List Json → List String
  | [] => []
  | j :: rest => pyRepr j :: pyReprList rest

/-- `repr` of each `key: value` pair of an object. -/
def pyReprObjList : List (String × Json) → List String
  | [] => []
  | (k, v) :: rest =>
    (String.mk (Char.ofNat 39 :: k.data ++ [Char.ofNat 39]) ++ ": "
      ++ pyRepr v) :: pyReprObjList rest

end

/-- Python `str()` of a decoded JSON value. -/
def pyStr : Json → String
  | .null => "None"
  | .bool b => if b then "True" else "False"
  | .num n => toString n
  | .str s => s
  | .arr l => pyRepr (.arr l)
  | .obj l => pyRepr (.obj l)

/-! ### `BlastengineHttpClient._extract_delivery_id`

The response body is `none` when `response.json()` raises `ValueError`,
and `some fields` for a decoded JSON object. -/

/-- `_extract_delivery_id`: the first truthy value among `delivery_id`,
`deliveryId` and `id` (Python `or` chain), stringified; an error when the
body is unparseable or no key yields a truthy value. -/
def extract_delivery_id (body : Option (List (String × Json))) :
    Except String String :=
  match body with
  | none => .error "Blastengineの応答をJSON解析できません"
  | some data =>
    let delivery :=
      pyOr (jget "delivery_id" data) (pyOr (jget "deliveryId" data) (jget "id" data))
    if truthy delivery then .ok (pyStr delivery)
    else .error "Blastengineの応答に delivery_id が含まれていません"

/-- C2: delivery-id extraction follows the priority order `delivery_id`,
`deliveryId`, `id` — the first key that yields an identifier (a truthy
value) wins — and errors on an unparseable body or when no key yields an
identifier. -/
theorem extract_delivery_id_spec :
    (∀ data v, jgetOpt "delivery_id" data = some v → truthy v = true →
      extract_delivery_id (some data) = .ok (pyStr v)) ∧
    (∀ data v, truthy (jget "delivery_id" data) = false →
      jgetOpt "deliveryId" data = some v → truthy v = true →
      extract_delivery_id (some data) = .ok (pyStr v)) ∧
    (∀ data v, truthy (jget "delivery_id" data) = false →
      truthy (jget "deliveryId" data) = false →
      jgetOpt "id" data = some v → truthy v = true →
      extract_delivery_id (some data) = .ok (pyStr v)) ∧
    (∀ data, truthy (jget "delivery_id" data) = false →
      truthy (jget "deliveryId" data) = false →
      truthy (jget "id" data) = false →
      ∃ e, extract_delivery_id (some data) = .error e) ∧
    (∃ e, extract_delivery_id none = .error e) := by
  refine ⟨?_, ?_, ?_, ?_, ⟨_, rfl⟩⟩
  · intro data v hv htr
    have hj : jget "delivery_id" data = v := by rw [jget, hv]; rfl
    simp [extract_delivery_id, pyOr, hj, htr]
  · intro data v h1 hv htr
    have hj : jget "deliveryId" data = v := by rw [jget, hv]; rfl
    simp [extract_delivery_id, pyOr, hj, h1, htr]
  · intro data v h1 h2 hv htr
    have hj : jget "id" data = v := by rw [jget, hv]; rfl
    simp [extract_delivery_id, pyOr, hj, h1, h2, htr]
  · intro data h1 h2 h3
    refine ⟨"Blastengineの応答に delivery_id が含まれていません", ?_⟩
    simp [extract_delivery_id, pyOr, h1, h2, h3]

/-- C2 witness: concrete bodies — priority of `delivery_id` over `id`, the
`deliveryId` fallback, the all-missing error, and the unparseable error. -/
theorem extract_delivery_id_spec_witness :
    (extract_delivery_id (some [("delivery_id", .str "A"), ("id", .str "B")])
      = .ok "A") ∧
    (extract_delivery_id (some [("deliveryId", .str "C")]) = .ok "C") ∧
    (∃ e, extract_delivery_id (some [("status", .str "ok")]) = .error e) ∧
    (∃ e, extract_delivery_id none = .error e) :=
  ⟨extract_delivery_id_spec.1 [("delivery_id", .str "A"), ("id", .str "B")]
      (.str "A") rfl rfl,
    extract_delivery_id_spec.2.1 [("deliveryId", .str "C")] (.str "C")
      rfl rfl rfl,
    extract_delivery_id_spec.2.2.2.1 [("status", .str "ok")] rfl rfl rfl,
    extract_delivery_id_spec.2.2.2.2⟩

/-! ### `BlastengineHttpClient.update_bulk_delivery` -/

/-- One outbound REST request. -/
structure RequestSpec where
  method : String
  path : String
  body : Json

/-- `_MAX_RECIPIENTS_PER_UPDATE`. -/
def MAX_RECIPIENTS_PER_UPDATE : Nat := 50

/-- `update_bulk_delivery`: one `PUT /deliveries/bulk/update/{id}` call
whose body holds only the `to` field with the first 50 recipients wrapped
as `{"email": address}`; the `payload` parameter is unused (kept for
backward compatibility), and no further call is made for later
recipients. -/
def update_bulk_delivery (delivery_id : String) (payload : Json)
    (recipients : List String) : RequestSpec :=
  let chunk := (recipients.take MAX_RECIPIENTS_PER_UPDATE).map
    fun email => Json.obj [("email", .str email)]
  { method := "PUT"
    path := "/deliveries/bulk/update/" ++ delivery_id
    body := .obj [("to", .arr chunk)] }

/-- C3: the single update request carries exactly the first
`min(len(recipients), 50)` addresses, each wrapped as `{"email": ...}`,
in their original order (the sent chunk is a prefix of the input list);
recipients beyond the cap are absent. -/
theorem update_bulk_delivery_spec (delivery_id : String) (payload : Json)
    (recipients : List String) :
    (update_bulk_delivery delivery_id payload recipients).body
      = .obj [("to", .arr ((recipients.take 50).map
          fun email => Json.obj [("email", .str email)]))] ∧
    (recipients.take 50).length = min recipients.length 50 ∧
    recipients.take 50 <+: recipients := by
  refine ⟨rfl, ?_, List.take_prefix 50 recipients⟩
  rw [List.length_take, Nat.min_comm]

/-! ### `SendBulkEmailTool._invoke`: the bulk call sequence (lines 74-81)

The three client calls are modelled with an oracle giving each remote
call's result; the flow records every issued operation in order. -/

/-- A bulk client operation as issued by `_invoke`. -/
inductive BulkOp
  /-- `create_bulk_delivery(payload, attachments)` (POST bulk/begin). -/
  | create (payload : Json) (attachmentCount : Nat)
  /-- `update_bulk_delivery(delivery_id, payload, recipients)`. -/
  | update (delivery_id : String) (recipients : List String)
  /-- `commit_bulk_delivery(delivery_id, schedule_at)`. -/
  | commit (delivery_id : String) (schedule_at : Option String)

/-- Results of the three remote calls: the delivery id returned by
create, whether update succeeds, and the id returned by commit. -/
structure BulkOracle where
  createResult : Except String String
  updateResult : Except String Unit
  commitResult : Except String String

/-- Lines 74-81 of `send_bulk_email.py`: create, then update with the
returned delivery id, then commit with the same id; any failure aborts the
rest (the surrounding `try` returns an error message).  Returns the issued
operations in order and the final result. -/
def sendBulkFlow (o : BulkOracle) (payload : Json) (attachmentCount : Nat)
    (recipients : List String) (schedule_at : Option String) :
    List BulkOp × Except String String :=
  match o.createResult with
  | .error e => ([.create payload attachmentCount], .error e)
  | .ok delivery_id =>
    match o.updateResult with
    | .error e =>
      ([.create payload attachmentCount, .update delivery_id recipients],
        .error e)
    | .ok _ =>
      match o.commitResult with
      | .error e =>
        ([.create payload attachmentCount, .update delivery_id recipients,
          .commit delivery_id schedule_at], .error e)
      | .ok did2 =>
        ([.create payload attachmentCount, .update delivery_id recipients,
          .commit delivery_id schedule_at], .ok did2)

/-- C9: in every successful bulk send the operations issued are exactly
create, then update, then commit, once each and in that order, with the
delivery id returned by create threaded into both update and commit; the
returned id is the one from commit. -/
theorem sendBulkFlow_order (o : BulkOracle) (payload : Json)
    (attachmentCount : Nat) (recipients : List String)
    (schedule_at : Option String) (did did2 : String)
    (hc : o.createResult = .ok did) (hu : o.updateResult = .ok ())
    (hk : o.commitResult = .ok did2) :
    sendBulkFlow o payload attachmentCount recipients schedule_at
      = ([.create payload attachmentCount, .update did recipients,
          .commit did schedule_at], .ok did2) := by
  rw [sendBulkFlow, hc, hu, hk]

/-- C9 witness: a concrete oracle where create returns `"D1"` and commit
returns `"D2"`. -/
theorem sendBulkFlow_order_witness :
    sendBulkFlow ⟨.ok "D1", .ok (), .ok "D2"⟩ (.obj []) 0 ["a@b.co"]
        none
      = ([.create (.obj []) 0, .update "D1" ["a@b.co"],
          .commit "D1" none], .ok "D2") :=
  sendBulkFlow_order ⟨.ok "D1", .ok (), .ok "D2"⟩ (.obj []) 0 ["a@b.co"]
    none "D1" "D2" rfl rfl rfl

/-! ### `BlastengineHttpClient._extract_error_message` -/

/-- `f"Blastengine APIエラー ({response.status_code})"`. -/
def apiErrPrefix (status : Nat) : String :=
  "Blastengine APIエラー (" ++ toString status ++ ")"

/-- The `all_errors` collected from an `error_messages` object: list values
contribute their first 3 items as `f"{key}: {item}"`, string values one
entry; other value types are skipped. -/
def emErrors : List (String × Json) → List String
  | [] => []
  | (k, v) :: rest =>
    (match v with
     | .arr items => (items.take 3).map fun item => k ++ ": " ++ pyStr item
     | .str s => [k ++ ": " ++ s]
     | _ => []) ++ emErrors rest

/-- The errors yielded by the `error_messages` field of the body, empty
when the field is missing or not an object. -/
def emBranchOf (d : List (String × Json)) : List String :=
  match jget "error_messages" d with
  | .obj em => emErrors em
  | _ => []

/-- `data.get("message") or data.get("error") or data.get("error_message")
or data.get("errors")`. -/
def messageOf (d : List (String × Json)) : Json :=
  pyOr (jget "message" d)
    (pyOr (jget "error" d) (pyOr (jget "error_message" d) (jget "errors" d)))

/-- The `error_parts` of a message object: `f"{key}: {value}"` for the
first 5 items whose value is a string or list. -/
def objPartsOf (mobj : List (String × Json)) : List String :=
  (mobj.take 5).filterMap fun kv =>
    match kv.2 with
    | .str _ => some (kv.1 ++ ": " ++ pyStr kv.2)
    | .arr _ => some (kv.1 ++ ": " ++ pyStr kv.2)
    | _ => none

/-- `_extract_error_message`: `body` is the decoded JSON (`none` when
`response.json()` raises), `text` is `response.text`.  Precedence: the
`error_messages` per-field map when it yields errors; then a
message/error/error_message/errors string; then such a list; then such an
object with usable parts; then the first 500 characters of the raw text;
then the status-only message. -/
def extract_error_message (status : Nat) (body : Option Json)
    (text : String) : String :=
  let fallback :=
    if text.isEmpty then apiErrPrefix status
    else apiErrPrefix status ++ ": "
      ++ sanitizeStr (String.mk (text.data.take 500))
  match body with
  | some (.obj d) =>
    match emBranchOf d with
    | e :: es =>
      apiErrPrefix status ++ ": "
        ++ "; ".intercalate (((e :: es).take 5).map sanitizeStr)
    | [] =>
      match messageOf d with
      | .str s => apiErrPrefix status ++ ": " ++ sanitizeStr s
      | .arr items =>
        apiErrPrefix status ++ ": "
          ++ ", ".intercalate (((items.take 3).map pyStr).map sanitizeStr)
      | .obj mobj =>
        match objPartsOf mobj with
        | p :: ps =>
          apiErrPrefix status ++ ": "
            ++ "; ".intercalate ((p :: ps).map sanitizeStr)
        | [] => fallback
      | _ => fallback
  | _ => fallback

/-- C4: the extracted error message follows the precedence over the body —
per-field `error_messages` map first, then a single
message/error/error_message string, then a list of error strings, then a
validation-error object, then the first 500 characters of the raw text,
and the status-only message for an empty, unparseable body. -/
theorem extract_error_message_spec :
    (∀ status d text, emBranchOf d ≠ [] →
      extract_error_message status (some (.obj d)) text
        = apiErrPrefix status ++ ": "
          ++ "; ".intercalate (((emBranchOf d).take 5).map sanitizeStr)) ∧
    (∀ status d text s, emBranchOf d = [] → messageOf d = .str s →
      extract_error_message status (some (.obj d)) text
        = apiErrPrefix status ++ ": " ++ sanitizeStr s) ∧
    (∀ status d text items, emBranchOf d = [] → messageOf d = .arr items →
      extract_error_message status (some (.obj d)) text
        = apiErrPrefix status ++ ": "
          ++ ", ".intercalate (((items.take 3).map pyStr).map sanitizeStr)) ∧
    (∀ status d text mobj, emBranchOf d = [] → messageOf d = .obj mobj →
      objPartsOf mobj ≠ [] →
      extract_error_message status (some (.obj d)) text
        = apiErrPrefix status ++ ": "
          ++ "; ".intercalate ((objPartsOf mobj).map sanitizeStr)) ∧
    (∀ status d text, emBranchOf d = [] → messageOf d = .null →
      text.isEmpty = false →
      extract_error_message status (some (.obj d)) text
        = apiErrPrefix status ++ ": "
          ++ sanitizeStr (String.mk (text.data.take 500))) ∧
    (∀ status text, text.isEmpty = false →
      extract_error_message status none text
        = apiErrPrefix status ++ ": "
          ++ sanitizeStr (String.mk (text.data.take 500))) ∧
    (∀ status, extract_error_message status none "" = apiErrPrefix status) := by
  refine ⟨?_, ?_, ?_, ?_, ?_, ?_, ?_⟩
  · intro status d text hne
    cases hE : emBranchOf d with
    | nil => exact absurd hE hne
    | cons e es =>
      rw [extract_error_message]
      rw [hE]
  · intro status d text s hE hm
    rw [extract_error_message]
    rw [hE, hm]
  · intro status d text items hE hm
    rw [extract_error_message]
    rw [hE, hm]
  · intro status d text mobj hE hm hp
    cases hP : objPartsOf mobj with
    | nil => exact absurd hP hp
    | cons p ps =>
      rw [extract_error_message]
      rw [hE, hm]
      dsimp only
      rw [hP]
  · intro status d text hE hm ht
    rw [extract_error_message]
    rw [hE, hm]
    rw [if_neg (by rw [ht]; exact Bool.false_ne_true)]
  · intro status text ht
    rw [extract_error_message]
    · rw [if_neg (by rw [ht]; exact Bool.false_ne_true)]
    · intro d h
      exact Option.noConfusion h
  · intro status
    rw [extract_error_message]
    · rfl
    · intro d h
      exact Option.noConfusion h

/-- C4 counterexample: an unparseable body whose raw text is nonempty
(`"gateway"`) is reported with the 500-character raw-text fallback, not
with the generic status-only message — so "a generic status-code-only
message if the body is ... unparseable" does not hold as stated; the
generic message appears only when the response text is empty. -/
theorem extract_error_message_unparseable_not_generic :
    extract_error_message 502 none "gateway" ≠ apiErrPrefix 502 := by
  decide

/-- C4 witness: concrete bodies exercising all seven precedence branches. -/
theorem extract_error_message_spec_witness :
    (extract_error_message 400
        (some (.obj [("error_messages", .obj [("main", .arr [.str "bad"])]),
          ("message", .str "ignored")])) "raw"
      = apiErrPrefix 400 ++ ": "
        ++ "; ".intercalate ((["main: bad"].take 5).map sanitizeStr)) ∧
    (extract_error_message 400 (some (.obj [("message", .str "oops")])) "raw"
      = apiErrPrefix 400 ++ ": " ++ sanitizeStr "oops") ∧
    (extract_error_message 422
        (some (.obj [("errors", .arr [.str "e1", .str "e2"])])) "raw"
      = apiErrPrefix 422 ++ ": "
        ++ ", ".intercalate ((([Json.str "e1", Json.str "e2"].take 3).map
            pyStr).map sanitizeStr)) ∧
    (extract_error_message 422
        (some (.obj [("error", .obj [("subject", .str "required")])])) "raw"
      = apiErrPrefix 422 ++ ": "
        ++ "; ".intercalate ((objPartsOf
            [("subject", .str "required")]).map sanitizeStr)) ∧
    (extract_error_message 500 (some (.obj [("status", .num 500)])) "boom"
      = apiErrPrefix 500 ++ ": "
        ++ sanitizeStr (String.mk ("boom".data.take 500))) ∧
    (extract_error_message 502 none "gateway"
      = apiErrPrefix 502 ++ ": "
        ++ sanitizeStr (String.mk ("gateway".data.take 500))) ∧
    (extract_error_message 503 none "" = apiErrPrefix 503) :=
  ⟨extract_error_message_spec.1 400
      [("error_messages", .obj [("main", .arr [.str "bad"])]),
        ("message", .str "ignored")] "raw" (by decide),
    extract_error_message_spec.2.1 400 [("message", .str "oops")] "raw"
      "oops" rfl rfl,
    extract_error_message_spec.2.2.1 422
      [("errors", .arr [.str "e1", .str "e2"])] "raw"
      [.str "e1", .str "e2"] rfl rfl,
    extract_error_message_spec.2.2.2.1 422
      [("error", .obj [("subject", .str "required")])] "raw"
      [("subject", .str "required")] rfl rfl (by decide),
    extract_error_message_spec.2.2.2.2.1 500 [("status", .num 500)] "boom"
      rfl rfl rfl,
    extract_error_message_spec.2.2.2.2.2.1 502 "gateway" rfl,
    extract_error_message_spec.2.2.2.2.2.2 503⟩

end Blastengine
